import Mathlib

set_option maxHeartbeats 1000000

/-!
Verification of the awl VPN data plane (src/vpn/vpn.go) and the p2p host
lifecycle (src/application.go), as a shallow embedding.

Conventions: bytes are `Nat` (values below 256), byte buffers are `List Nat`,
a Go in-place slice write becomes the functional update `writeAt`, and Go
`uint32` arithmetic carries an explicit modulus 4294967296 wherever the Go
counters could wrap.  Fallible operations return `Option`; a Go panic
(out-of-bounds index) is a distinguished outcome where a claim needs it.
-/

/-- Go constant interfaceMTU = 3500 (src/vpn/vpn.go line 19). -/
def interfaceMTU : Nat := 3500

/-- Go constant maxContentSize = interfaceMTU * 2 (src/vpn/vpn.go line 20). -/
def maxContentSize : Nat := interfaceMTU * 2

/-- Go constant tunPacketOffset = 4, the internal tun header (src/vpn/vpn.go line 23). -/
def tunPacketOffset : Nat := 4

/-- Go constant ipv4offsetChecksum = 10 (src/vpn/vpn.go line 24). -/
def ipv4offsetChecksum : Nat := 10

/-- golang.org/x/net/ipv4.HeaderLen = 20. -/
def ipv4HeaderLen : Nat := 20

/-- golang.org/x/net/ipv6.HeaderLen = 40. -/
def ipv6HeaderLen : Nat := 40

/-- wireguard/device.IPv4offsetSrc = 12. -/
def IPv4offsetSrc : Nat := 12

/-- wireguard/device.IPv4offsetDst = 16. -/
def IPv4offsetDst : Nat := 16

/-- wireguard/device.IPv6offsetSrc = 8. -/
def IPv6offsetSrc : Nat := 8

/-- wireguard/device.IPv6offsetDst = 24. -/
def IPv6offsetDst : Nat := 24

/-- net.IPv4len = 4. -/
def IPv4len : Nat := 4

/-- net.IPv6len = 16. -/
def IPv6len : Nat := 16

/-- Functional form of a Go in-place write into a byte slice: overwrite `l`
starting at offset `i` with the bytes of `v`, truncating at the end of `l`
(Go `copy` semantics).  The length of the list is preserved. -/
def writeAt (i : Nat) (v : List Nat) (l : List Nat) : List Nat :=
  l.take i ++ v.take (l.length - i) ++ l.drop (i + v.length)

/-- The carry-folding loop shared by checksumIPv4Header (src/vpn/vpn.go lines
273-275) and tcpipChecksum (lines 313-315): while the accumulator exceeds
0xffff, add its high and low 16-bit halves.  Go `v >> 16` is `v / 65536` and
`v & 0xffff` is `v % 65536`. -/
def foldCsum (v : Nat) : Nat :=
  if 65535 < v then foldCsum (v / 65536 + v % 65536) else v
termination_by v
decreasing_by omega

/-- The summation loop of checksumIPv4Header (src/vpn/vpn.go lines 266-272):
big-endian 16-bit words are added into a uint32 accumulator, and an odd
trailing byte contributes its value shifted left by 8. -/
def hdrSum32 : List Nat → Nat → Nat
  | [], v => v
  | [b], v => (v + b * 256) % 4294967296
  | b1 :: b2 :: rest, v => hdrSum32 rest ((v + (b1 * 256 + b2)) % 4294967296)

/-- checksumIPv4Header (src/vpn/vpn.go lines 265-278).  The final
`^uint16(v)` truncates the folded accumulator to 16 bits and complements it,
which on Nat is xor with 0xffff. -/
def checksumIPv4Header (buf : List Nat) : Nat :=
  65535 ^^^ (foldCsum (hdrSum32 buf 0) % 65536)

/-- The summation loop of tcpipChecksum (src/vpn/vpn.go lines 303-312):
`csum += data[i] << 8; csum += data[i+1]` over pairs, and an odd trailing
byte contributes `data[last] << 8`. -/
def tcpipSum32 : List Nat → Nat → Nat
  | [], c => c
  | [b], c => (c + b * 256) % 4294967296
  | b1 :: b2 :: rest, c => tcpipSum32 rest (((c + b1 * 256) % 4294967296 + b2) % 4294967296)

/-- tcpipChecksum (src/vpn/vpn.go lines 299-317), the RFC-1071 checksum with
an initial accumulator. -/
def tcpipChecksum (data : List Nat) (csum : Nat) : Nat :=
  65535 ^^^ (foldCsum (tcpipSum32 data csum) % 65536)

/-- checksumIPv4TCPUDP (src/vpn/vpn.go lines 280-294): the IPv4 pseudo-header
is pre-folded into the initial accumulator from the four octets of each
address and the protocol+length contribution, then tcpipChecksum finishes.
Go `totalLen & 0xffff` is `% 65536` and `totalLen >> 16` is `/ 65536`. -/
def checksumIPv4TCPUDP (headerAndPayload : List Nat) (protocol : Nat)
    (srcIP dstIP : List Nat) : Nat :=
  let csum := ((srcIP.getD 0 0 + srcIP.getD 2 0) * 256) % 4294967296
  let csum := (csum + (srcIP.getD 1 0 + srcIP.getD 3 0)) % 4294967296
  let csum := (csum + (dstIP.getD 0 0 + dstIP.getD 2 0) * 256) % 4294967296
  let csum := (csum + (dstIP.getD 1 0 + dstIP.getD 3 0)) % 4294967296
  let totalLen := headerAndPayload.length % 4294967296
  let csum := (csum + protocol) % 4294967296
  let csum := (csum + totalLen % 65536) % 4294967296
  let csum := (csum + totalLen / 65536) % 4294967296
  tcpipChecksum headerAndPayload csum

/-- Specification-side view: the big-endian 16-bit words of a byte sequence,
an odd trailing byte standing for `b <<< 8` (RFC 1071). -/
def words16 : List Nat → List Nat
  | [] => []
  | [b] => [b * 256]
  | b1 :: b2 :: rest => (b1 * 256 + b2) :: words16 rest

/-- Specification-side RFC-1071 checksum of an IPv4 header: sum the 16-bit
big-endian words in unbounded arithmetic, fold the carries, complement. -/
def ipv4HeaderChecksumSpec (header : List Nat) : Nat :=
  65535 ^^^ foldCsum (words16 header).sum

/-- Specification-side IPv4 pseudo-header words: source address, destination
address, 0x00 followed by the protocol number, and the L4 length. -/
def pseudoHeaderWords (srcIP dstIP : List Nat) (protocol l4len : Nat) : List Nat :=
  words16 srcIP ++ words16 dstIP ++ [protocol, l4len]

/-- Specification-side RFC-1071 TCP/UDP checksum over the IPv4 pseudo-header
and the L4 bytes, in unbounded arithmetic. -/
def ipv4L4ChecksumSpec (data : List Nat) (protocol : Nat) (srcIP dstIP : List Nat) : Nat :=
  65535 ^^^ foldCsum (pseudoHeaderWords srcIP dstIP protocol data.length ++ words16 data).sum

/-- Outcome of Packet.Parse (src/vpn/vpn.go lines 210-234).  `panic` marks
the out-of-bounds read of `packet[0]` on an empty slice; `fail` is Go
`return false`; `ok` carries the src and dst views and the IsIPv6 flag set
on success. -/
inductive ParseOutcome where
  | panic : ParseOutcome
  | fail : ParseOutcome
  | ok (src dst : List Nat) (isIPv6 : Bool) : ParseOutcome
deriving DecidableEq

/-- Packet.Parse (src/vpn/vpn.go lines 210-234): read the top nibble of byte
0 as the version (this indexes the slice before any length check), then
dispatch; src and dst are views into the packet at the fixed offsets. -/
def Parse (packet : List Nat) : ParseOutcome :=
  match packet.head? with
  | none => ParseOutcome.panic
  | some b0 =>
    if b0 / 16 = 4 then
      if packet.length < ipv4HeaderLen then ParseOutcome.fail
      else ParseOutcome.ok ((packet.drop IPv4offsetSrc).take IPv4len)
        ((packet.drop IPv4offsetDst).take IPv4len) false
    else if b0 / 16 = 6 then
      if packet.length < ipv6HeaderLen then ParseOutcome.fail
      else ParseOutcome.ok ((packet.drop IPv6offsetSrc).take IPv6len)
        ((packet.drop IPv6offsetDst).take IPv6len) true
    else ParseOutcome.fail

/-- Packet.ReadFrom (src/vpn/vpn.go lines 196-208) reads the stream's chunks
into the buffer starting at tunPacketOffset until end-of-stream and sets the
packet view to the written region; the region is bounded by the buffer
capacity. -/
def readFromPacket (chunks : List (List Nat)) : List Nat :=
  (chunks.flatten).take (maxContentSize - tunPacketOffset)

/-- Packet.RecalculateChecksum, IPv4 branch (src/vpn/vpn.go lines 244-262),
operating on the packet bytes.  The Src and Dst views alias the packet at
the IPv4 offsets 12 and 16 set by Parse, so the checksum reads them from
the current packet state.  `ipHeaderLen` is `(packet[0] & 0x0f) << 2`. -/
def recalculateChecksumIPv4 (packet : List Nat) : List Nat :=
  let ipHeaderLen := packet.getD 0 0 % 16 * 4
  let p1 := writeAt ipv4offsetChecksum [0, 0] packet
  let ipChecksum := checksumIPv4Header (p1.take ipHeaderLen)
  let p2 := writeAt ipv4offsetChecksum [ipChecksum / 256, ipChecksum % 256] p1
  if p2.getD 9 0 = 6 then
    let tcpOffsetChecksum := ipHeaderLen + 16
    let p3 := writeAt tcpOffsetChecksum [0, 0] p2
    let checksum := checksumIPv4TCPUDP (p3.drop ipHeaderLen) (p2.getD 9 0)
      ((p3.drop IPv4offsetSrc).take IPv4len) ((p3.drop IPv4offsetDst).take IPv4len)
    writeAt tcpOffsetChecksum [checksum / 256, checksum % 256] p3
  else if p2.getD 9 0 = 17 then
    let udpOffsetChecksum := ipHeaderLen + 6
    let p3 := writeAt udpOffsetChecksum [0, 0] p2
    let checksum := checksumIPv4TCPUDP (p3.drop ipHeaderLen) (p2.getD 9 0)
      ((p3.drop IPv4offsetSrc).take IPv4len) ((p3.drop IPv4offsetDst).take IPv4len)
    writeAt udpOffsetChecksum [checksum / 256, checksum % 256] p3
  else p2

/-- Packet.RecalculateChecksum (src/vpn/vpn.go lines 236-263): a no-op for
IPv6 packets. -/
def RecalculateChecksum (isIPv6 : Bool) (packet : List Nat) : List Nat :=
  if isIPv6 then packet else recalculateChecksumIPv4 packet

/-- The IPv4 body of Device.WritePacket (src/vpn/vpn.go lines 91-95):
copy senderIP over the Src view (packet bytes 12..16) and the device's
localIP over the Dst view (packet bytes 16..20) -- Go copy truncates each
source to the 4-byte view -- then recalculate the checksums. -/
def writePacketIPv4 (packet senderIP localIP : List Nat) : List Nat :=
  recalculateChecksumIPv4
    (writeAt IPv4offsetDst (localIP.take IPv4len)
      (writeAt IPv4offsetSrc (senderIP.take IPv4len) packet))

/-- Device.WritePacket (src/vpn/vpn.go lines 87-105).  The result is the
byte sequence handed to tun.Write: `Buffer[:tunPacketOffset+len(Packet)]`
after the in-place rewrite, where the packet view is
`Buffer[tunPacketOffset : tunPacketOffset+packetLen]`.  For IPv6 the
function returns success without writing (`none` here). -/
def WritePacket (buffer : List Nat) (packetLen : Nat) (isIPv6 : Bool)
    (senderIP localIP : List Nat) : Option (List Nat) :=
  if isIPv6 then none
  else
    some (buffer.take tunPacketOffset ++
      writePacketIPv4 ((buffer.drop tunPacketOffset).take packetLen) senderIP localIP)

/-- One iteration of Device.tunPacketsReader (src/vpn/vpn.go lines 159-177)
after a successful tun read of `size` bytes into the buffer at
tunPacketOffset: drop the packet when the size is 0 or above maxContentSize,
set the packet view, drop it when Parse fails, otherwise emit it on the
outbound channel. -/
def tunReaderStep (buffer : List Nat) (size : Nat) : Option (List Nat) :=
  if size = 0 then none
  else if maxContentSize < size then none
  else
    let packet := (buffer.drop tunPacketOffset).take size
    match Parse packet with
    | ParseOutcome.ok _ _ _ => some packet
    | _ => none

/-- A Go Packet value (src/vpn/vpn.go lines 181-187): the backing buffer
array and the three nilable views plus the IsIPv6 flag.  `none` models a nil
slice. -/
structure PoolPacket where
  buffer : List Nat
  packet : Option (List Nat)
  src : Option (List Nat)
  dst : Option (List Nat)
  isIPv6 : Bool
deriving DecidableEq

/-- The zero value of the Go Packet struct, produced by the pool's New
function (src/vpn/vpn.go lines 66-69). -/
def zeroPacket : PoolPacket :=
  { buffer := List.replicate maxContentSize 0, packet := none, src := none,
    dst := none, isIPv6 := false }

/-- Packet.clear (src/vpn/vpn.go lines 189-194): drop the three views and
reset IsIPv6; the backing array is left as is. -/
def clearPacket (p : PoolPacket) : PoolPacket :=
  { p with packet := none, src := none, dst := none, isIPv6 := false }

/-- Views of a packet are clean: nil packet view, nil src and dst, IsIPv6
false. -/
def cleanViews (p : PoolPacket) : Prop :=
  p.packet = none ∧ p.src = none ∧ p.dst = none ∧ p.isIPv6 = false

instance (p : PoolPacket) : Decidable (cleanViews p) := by
  unfold cleanViews; infer_instance

/-- A packet is zero-initialized when it is the zero value of the struct:
every byte of the backing array is 0 and the views are clean. -/
def zeroInitialized (p : PoolPacket) : Prop :=
  (∀ b ∈ p.buffer, b = 0) ∧ cleanViews p

/-- Device.GetTempPacket (src/vpn/vpn.go lines 78-80): sync.Pool.Get either
returns some previously put packet (the pool chooses which, modelled by
`choice`) or allocates a fresh zero value. -/
def getTempPacket (pool : List PoolPacket) (choice : Nat) :
    PoolPacket × List PoolPacket :=
  match pool[choice]? with
  | some p => (p, pool.eraseIdx choice)
  | none => (zeroPacket, pool)

/-- Device.PutTempPacket (src/vpn/vpn.go lines 82-85): clear the packet,
then put it into the pool. -/
def putTempPacket (pool : List PoolPacket) (p : PoolPacket) : List PoolPacket :=
  clearPacket p :: pool

/-- A pool client action: check a packet in (an arbitrary used packet) or
check one out (the pool's choice is arbitrary). -/
inductive PoolOp where
  | checkIn (p : PoolPacket) : PoolOp
  | checkOut (choice : Nat) : PoolOp
deriving DecidableEq

/-- One pool operation applied to a state (pool, packets handed out so
far). -/
def poolStep (st : List PoolPacket × List PoolPacket) (op : PoolOp) :
    List PoolPacket × List PoolPacket :=
  match op with
  | PoolOp.checkIn p => (putTempPacket st.1 p, st.2)
  | PoolOp.checkOut c => ((getTempPacket st.1 c).2, (getTempPacket st.1 c).1 :: st.2)

/-- Run an interleaving of pool operations from the initial empty pool,
collecting the packets handed out by getTempPacket. -/
def runPool (ops : List PoolOp) : List PoolPacket × List PoolPacket :=
  ops.foldl poolStep ([], [])

/-- libp2p stream direction (network.Direction): inbound, outbound, or
unknown. -/
inductive StreamDirection where
  | inbound : StreamDirection
  | outbound : StreamDirection
  | unknown : StreamDirection
deriving DecidableEq

/-- A stream notification event delivered to the notify bundle
(src/application.go lines 324-344). -/
inductive StreamEvent where
  | openedStream (d : StreamDirection) : StreamEvent
  | closedStream : StreamEvent
deriving DecidableEq

/-- The three int64 stream counters of P2p (src/application.go lines
212-214). -/
structure StreamCounters where
  openedStreams : Int
  totalStreamsInbound : Int
  totalStreamsOutbound : Int
deriving DecidableEq

/-- One callback of the notify bundle (src/application.go lines 324-344):
OpenedStreamF increments openedStreams and then, by direction, one of the
two totals (the switch has no case for an unknown direction); ClosedStreamF
decrements openedStreams. -/
def notifyStep (s : StreamCounters) (e : StreamEvent) : StreamCounters :=
  match e with
  | StreamEvent.openedStream d =>
    let s1 := { s with openedStreams := s.openedStreams + 1 }
    match d with
    | StreamDirection.inbound =>
      { s1 with totalStreamsInbound := s1.totalStreamsInbound + 1 }
    | StreamDirection.outbound =>
      { s1 with totalStreamsOutbound := s1.totalStreamsOutbound + 1 }
    | StreamDirection.unknown => s1
  | StreamEvent.closedStream =>
    { s with openedStreams := s.openedStreams - 1 }

/-- The all-zero initial counter state. -/
def zeroCounters : StreamCounters :=
  { openedStreams := 0, totalStreamsInbound := 0, totalStreamsOutbound := 0 }

/-- Counter state reached from all-zero after a sequence of notification
events. -/
def runNotify (events : List StreamEvent) : StreamCounters :=
  events.foldl notifyStep zeroCounters

/-- An event trace is stream-generated when every ClosedStream closes a
stream opened before it: along the trace the number of closes never exceeds
the number of opens.  `k` is the number of currently open streams. -/
def balancedFrom : Nat → List StreamEvent → Bool
  | _, [] => true
  | k, StreamEvent.openedStream _ :: rest => balancedFrom (k + 1) rest
  | 0, StreamEvent.closedStream :: _ => false
  | k + 1, StreamEvent.closedStream :: rest => balancedFrom k rest

/-- Number of OpenedStream events in a trace. -/
def countOpens (es : List StreamEvent) : Nat :=
  es.countP (fun e => match e with
    | StreamEvent.openedStream _ => true
    | StreamEvent.closedStream => false)

/-- Number of ClosedStream events in a trace. -/
def countCloses (es : List StreamEvent) : Nat :=
  es.countP (fun e => match e with
    | StreamEvent.closedStream => true
    | _ => false)

/-- Number of inbound OpenedStream events in a trace. -/
def countOpensIn (es : List StreamEvent) : Nat :=
  es.countP (fun e => match e with
    | StreamEvent.openedStream StreamDirection.inbound => true
    | _ => false)

/-- Number of outbound OpenedStream events in a trace. -/
def countOpensOut (es : List StreamEvent) : Nat :=
  es.countP (fun e => match e with
    | StreamEvent.openedStream StreamDirection.outbound => true
    | _ => false)

/-- Result of one bootstrap dial (src/application.go lines 519-523):
success, a context cancellation, or any other error. -/
inductive DialResult where
  | success : DialResult
  | contextCanceled : DialResult
  | failed : DialResult
deriving DecidableEq

/-- A configured bootstrap peer address as the loop sees it
(src/application.go lines 509-525): either its AddrInfo parse fails, or it
is dialed with some result. -/
inductive BootstrapPeer where
  | invalidAddr : BootstrapPeer
  | valid (dial : DialResult) : BootstrapPeer
deriving DecidableEq

/-- Observable events of P2p.Bootstrap, in order. -/
inductive BootstrapLog where
  | warnInvalidAddr : BootstrapLog
  | warnConnectFailed : BootstrapLog
  | infoConnected : BootstrapLog
  | dhtBootstrapStarted : BootstrapLog
deriving DecidableEq

/-- The log events a single peer contributes (src/application.go lines
510-523): an unparseable address is logged and skipped; a dial error equal
to context.Canceled is silently ignored; any other dial error is logged at
warning; a successful dial is logged at info. -/
def dialLogs : BootstrapPeer → List BootstrapLog
  | BootstrapPeer.invalidAddr => [BootstrapLog.warnInvalidAddr]
  | BootstrapPeer.valid DialResult.contextCanceled => []
  | BootstrapPeer.valid DialResult.failed => [BootstrapLog.warnConnectFailed]
  | BootstrapPeer.valid DialResult.success => [BootstrapLog.infoConnected]

/-- P2p.Bootstrap (src/application.go lines 502-534): dial all parseable
peers, wait for every dial to complete (wg.Wait), then run the DHT
self-bootstrap; only its error is propagated, wrapped by
fmt.Errorf("bootstrap dht: %v", err). -/
def Bootstrap (peers : List BootstrapPeer) (dhtErr : Option String) :
    List BootstrapLog × Option String :=
  ((peers.map dialLogs).flatten ++ [BootstrapLog.dhtBootstrapStarted],
    dhtErr.map (fun e => "bootstrap dht: " ++ e))

/-- Derived reading of the IPv4 header length field:
`(packet[0] & 0x0f) << 2`. -/
def ihlOf (p : List Nat) : Nat := p.getD 0 0 % 16 * 4

/-- Derived reading of the IPv4 protocol byte `packet[9]`. -/
def protoOf (p : List Nat) : Nat := p.getD 9 0

/-- The IP header checksum recalculateChecksumIPv4 stores: checksumIPv4Header
over the first ihl bytes with the two checksum bytes zeroed. -/
def ipCk (p : List Nat) : Nat :=
  checksumIPv4Header ((writeAt ipv4offsetChecksum [0, 0] p).take (ihlOf p))

/-- The packet with its IP header checksum regenerated. -/
def withIpCk (p : List Nat) : List Nat :=
  writeAt ipv4offsetChecksum [ipCk p / 256, ipCk p % 256] p

/-- Offset of the L4 checksum field: ihl+16 for TCP, ihl+6 for UDP. -/
def l4Off (p : List Nat) : Nat :=
  if protoOf p = 6 then ihlOf p + 16 else ihlOf p + 6

/-- The transport checksum recalculateChecksumIPv4 stores, computed on the
packet whose IP checksum is already rewritten and whose L4 checksum field is
zeroed, with the src and dst views read from that state. -/
def l4Ck (p : List Nat) : Nat :=
  checksumIPv4TCPUDP
    ((writeAt (l4Off p) [0, 0] (withIpCk p)).drop (ihlOf p)) (protoOf p)
    (((writeAt (l4Off p) [0, 0] (withIpCk p)).drop IPv4offsetSrc).take IPv4len)
    (((writeAt (l4Off p) [0, 0] (withIpCk p)).drop IPv4offsetDst).take IPv4len)

/-- Canonical form of recalculateChecksumIPv4: regenerate the IP header
checksum, then overwrite the L4 checksum field for TCP and UDP. -/
def canonRecalc (p : List Nat) : List Nat :=
  if protoOf p = 6 ∨ protoOf p = 17 then
    writeAt (l4Off p) [l4Ck p / 256, l4Ck p % 256] (withIpCk p)
  else withIpCk p

/-- Well-formedness of an IPv4 packet for checksum recalculation: the header
length field is at least 5 (so the header covers the fixed fields), the
header fits in the packet, and for TCP and UDP the L4 checksum field fits in
the packet. -/
def RecalcWF (p : List Nat) : Prop :=
  5 ≤ p.getD 0 0 % 16 ∧ ihlOf p ≤ p.length ∧
    (protoOf p = 6 → ihlOf p + 18 ≤ p.length) ∧
    (protoOf p = 17 → ihlOf p + 8 ≤ p.length)

instance (p : List Nat) : Decidable (RecalcWF p) := by
  unfold RecalcWF; infer_instance


/-- Test vector: a 40-byte IPv4 TCP SYN packet (ihl=5, 20-byte TCP header, no
payload) from 10.0.0.1 to 10.0.0.2, checksums zeroed. -/
def synPacket : List Nat :=
  [0x45, 0x00, 0x00, 0x28, 0x00, 0x01, 0x00, 0x00, 0x40, 0x06, 0x00, 0x00,
   0x0a, 0x00, 0x00, 0x01, 0x0a, 0x00, 0x00, 0x02,
   0x04, 0x01, 0x00, 0x50, 0x00, 0x00, 0x00, 0x01, 0x00, 0x00, 0x00, 0x00,
   0x50, 0x02, 0x20, 0x00, 0x00, 0x00, 0x00, 0x00]

/-- Test vector: a 38-byte IPv4 UDP packet from 10.0.0.1 to 10.0.0.2 with a
10-byte payload, checksums zeroed. -/
def udpPacket : List Nat :=
  [0x45, 0x00, 0x00, 0x22, 0x00, 0x01, 0x00, 0x00, 0x40, 0x11, 0x00, 0x00,
   0x0a, 0x00, 0x00, 0x01, 0x0a, 0x00, 0x00, 0x02,
   0x04, 0x01, 0x00, 0x35, 0x00, 0x12, 0x00, 0x00,
   0xaa, 0xaa, 0xaa, 0xaa, 0xaa, 0xaa, 0xaa, 0xaa, 0xaa, 0xaa]

/-- Test vector: a used PoolPacket whose backing array retains a nonzero
byte. -/
def dirtyPacket : PoolPacket :=
  { buffer := 1 :: List.replicate (maxContentSize - 1) 0,
    packet := some [1], src := some [1], dst := some [1], isIPv6 := true }

/-! Lemmas about `writeAt`. -/

theorem writeAt_length (i : Nat) (v l : List Nat) : (writeAt i v l).length = l.length := by
  simp only [writeAt, List.length_append, List.length_take, List.length_drop]
  omega

theorem getElem?_writeAt {i : Nat} {v l : List Nat} (h : i + v.length ≤ l.length) (j : Nat) :
    (writeAt i v l)[j]? = if i ≤ j ∧ j < i + v.length then v[j - i]? else l[j]? := by
  have htk : (l.take i).length = i := by rw [List.length_take]; omega
  unfold writeAt
  rw [List.take_of_length_le (by omega : v.length ≤ l.length - i),
    List.append_assoc, List.getElem?_append, htk]
  by_cases hj1 : j < i
  · rw [if_pos hj1, if_neg (by omega), List.getElem?_take_of_lt hj1]
  · rw [if_neg hj1, List.getElem?_append]
    by_cases hj2 : j - i < v.length
    · rw [if_pos hj2, if_pos (by omega)]
    · rw [if_neg hj2, if_neg (by omega), List.getElem?_drop]
      congr 1
      omega

theorem getD_writeAt {i : Nat} {v l : List Nat} (h : i + v.length ≤ l.length) (j : Nat) :
    (writeAt i v l).getD j 0 =
      if i ≤ j ∧ j < i + v.length then v.getD (j - i) 0 else l.getD j 0 := by
  simp only [List.getD_eq_getElem?_getD, getElem?_writeAt h]
  split <;> rfl

theorem writeAt_writeAt_same {i : Nat} {v w l : List Nat} (hvw : w.length = v.length)
    (h : i + v.length ≤ l.length) : writeAt i v (writeAt i w l) = writeAt i v l := by
  have hl := writeAt_length i w l
  apply List.ext_getElem?
  intro j
  rw [getElem?_writeAt (by omega), getElem?_writeAt h]
  by_cases hc : i ≤ j ∧ j < i + v.length
  · rw [if_pos hc, if_pos hc]
  · rw [if_neg hc, if_neg hc, getElem?_writeAt (by omega), if_neg (by omega)]

theorem writeAt_comm {i j : Nat} {v w l : List Nat} (hij : i + v.length ≤ j)
    (hj : j + w.length ≤ l.length) :
    writeAt i v (writeAt j w l) = writeAt j w (writeAt i v l) := by
  have hlw := writeAt_length j w l
  have hlv := writeAt_length i v l
  apply List.ext_getElem?
  intro k
  rw [@getElem?_writeAt i v (writeAt j w l) (by omega) k,
    @getElem?_writeAt j w l hj k,
    @getElem?_writeAt j w (writeAt i v l) (by omega) k,
    @getElem?_writeAt i v l (by omega) k]
  by_cases hc1 : i ≤ k ∧ k < i + v.length
  · rw [if_pos hc1, if_neg (by omega), if_pos hc1]
  · rw [if_neg hc1]
    by_cases hc2 : j ≤ k ∧ k < j + w.length
    · rw [if_pos hc2, if_pos hc2]
    · rw [if_neg hc2, if_neg hc2, if_neg hc1]

theorem take_writeAt_of_le {m i : Nat} {v l : List Nat} (hm : m ≤ i)
    (h : i + v.length ≤ l.length) : (writeAt i v l).take m = l.take m := by
  apply List.ext_getElem?
  intro j
  rw [List.getElem?_take, List.getElem?_take]
  by_cases hj : j < m
  · rw [if_pos hj, if_pos hj, getElem?_writeAt h, if_neg (by omega)]
  · rw [if_neg hj, if_neg hj]

theorem drop_take_writeAt_disjoint {a b i : Nat} {v l : List Nat}
    (h : i + v.length ≤ l.length) (hdisj : a + b ≤ i ∨ i + v.length ≤ a) :
    ((writeAt i v l).drop a).take b = (l.drop a).take b := by
  apply List.ext_getElem?
  intro j
  rw [List.getElem?_take, List.getElem?_take]
  by_cases hj : j < b
  · rw [if_pos hj, if_pos hj, List.getElem?_drop, List.getElem?_drop,
      getElem?_writeAt h, if_neg (by omega)]
  · rw [if_neg hj, if_neg hj]

theorem drop_take_writeAt_exact {i : Nat} {v l : List Nat} (h : i + v.length ≤ l.length) :
    ((writeAt i v l).drop i).take v.length = v := by
  apply List.ext_getElem?
  intro j
  rw [List.getElem?_take]
  by_cases hj : j < v.length
  · rw [if_pos hj, List.getElem?_drop, getElem?_writeAt h, if_pos (by omega)]
    congr 1
    omega
  · rw [if_neg hj]
    exact (List.getElem?_eq_none (by omega)).symm

theorem writeAt_slice_self {i : Nat} {v l : List Nat} (h : i + v.length ≤ l.length)
    (hv : (l.drop i).take v.length = v) : writeAt i v l = l := by
  apply List.ext_getElem?
  intro j
  rw [getElem?_writeAt h]
  by_cases hc : i ≤ j ∧ j < i + v.length
  · rw [if_pos hc, ← hv, List.getElem?_take, if_pos (by omega), List.getElem?_drop]
    congr 1
    omega
  · rw [if_neg hc]

/-! Lemmas about the checksum accumulation loops. -/

theorem foldCsum_le (v : Nat) : foldCsum v ≤ 65535 := by
  rw [foldCsum]
  split
  · exact foldCsum_le _
  · omega
termination_by v
decreasing_by omega

theorem hdrSum32_eq : ∀ (l : List Nat) (c : Nat), c < 4294967296 →
    hdrSum32 l c = (c + (words16 l).sum) % 4294967296
  | [], c, hc => by
    simp only [hdrSum32, words16, List.sum_nil, Nat.add_zero]
    omega
  | [b], c, hc => by
    simp only [hdrSum32, words16, List.sum_cons, List.sum_nil, Nat.add_zero]
  | b1 :: b2 :: rest, c, hc => by
    have hm : (c + (b1 * 256 + b2)) % 4294967296 < 4294967296 := Nat.mod_lt _ (by omega)
    simp only [hdrSum32, words16, List.sum_cons]
    rw [hdrSum32_eq rest _ hm, Nat.mod_add_mod]
    omega

theorem tcpipSum32_eq : ∀ (l : List Nat) (c : Nat), c < 4294967296 →
    tcpipSum32 l c = (c + (words16 l).sum) % 4294967296
  | [], c, hc => by
    simp only [tcpipSum32, words16, List.sum_nil, Nat.add_zero]
    omega
  | [b], c, hc => by
    simp only [tcpipSum32, words16, List.sum_cons, List.sum_nil, Nat.add_zero]
  | b1 :: b2 :: rest, c, hc => by
    have hm : ((c + b1 * 256) % 4294967296 + b2) % 4294967296 < 4294967296 :=
      Nat.mod_lt _ (by omega)
    simp only [tcpipSum32, words16, List.sum_cons]
    rw [tcpipSum32_eq rest _ hm]
    omega

theorem words16_sum_le : ∀ (l : List Nat), (∀ b ∈ l, b ≤ 255) →
    (words16 l).sum ≤ 32768 * (l.length + 1)
  | [], _ => by simp [words16]
  | [b], h => by
    have hb := h b (by simp)
    simp only [words16, List.sum_cons, List.sum_nil, List.length_cons, List.length_nil]
    omega
  | b1 :: b2 :: rest, h => by
    have h1 := h b1 (by simp)
    have h2 := h b2 (by simp)
    have hr := words16_sum_le rest (fun b hb => h b (by simp [hb]))
    simp only [words16, List.sum_cons, List.length_cons]
    omega

/-! Equivalence of the Go checksum loops with the RFC-1071 specification. -/

theorem checksumIPv4Header_spec (buf : List Nat) (hb : ∀ b ∈ buf, b ≤ 255)
    (hlen : buf.length ≤ 65535) :
    checksumIPv4Header buf = ipv4HeaderChecksumSpec buf := by
  have hsum := words16_sum_le buf hb
  have hlt : (words16 buf).sum < 4294967296 := by omega
  unfold checksumIPv4Header ipv4HeaderChecksumSpec
  rw [hdrSum32_eq buf 0 (by omega), Nat.zero_add, Nat.mod_eq_of_lt hlt,
    Nat.mod_eq_of_lt (by have := foldCsum_le (words16 buf).sum; omega)]

theorem exists_four_of_length {l : List Nat} (h : l.length = 4) :
    ∃ a b c d, l = [a, b, c, d] := by
  match l, h with
  | [a, b, c, d], _ => exact ⟨a, b, c, d, rfl⟩

theorem checksumIPv4TCPUDP_spec (data : List Nat) (protocol : Nat) (srcIP dstIP : List Nat)
    (hsrc : srcIP.length = 4) (hdst : dstIP.length = 4)
    (hsb : ∀ b ∈ srcIP, b ≤ 255) (hdb : ∀ b ∈ dstIP, b ≤ 255)
    (hdata : ∀ b ∈ data, b ≤ 255) (hproto : protocol ≤ 255)
    (hlen : data.length ≤ 65535) :
    checksumIPv4TCPUDP data protocol srcIP dstIP =
      ipv4L4ChecksumSpec data protocol srcIP dstIP := by
  obtain ⟨s0, s1, s2, s3, rfl⟩ := exists_four_of_length hsrc
  obtain ⟨d0, d1, d2, d3, rfl⟩ := exists_four_of_length hdst
  have hs0 := hsb s0 (by simp)
  have hs1 := hsb s1 (by simp)
  have hs2 := hsb s2 (by simp)
  have hs3 := hsb s3 (by simp)
  have hd0 := hdb d0 (by simp)
  have hd1 := hdb d1 (by simp)
  have hd2 := hdb d2 (by simp)
  have hd3 := hdb d3 (by simp)
  have hS := words16_sum_le data hdata
  have hxor : ∀ x y : Nat, x = y → 65535 ^^^ (foldCsum x % 65536) = 65535 ^^^ foldCsum y := by
    intro x y hxy
    rw [hxy, Nat.mod_eq_of_lt (by have := foldCsum_le y; omega)]
  simp only [checksumIPv4TCPUDP, tcpipChecksum, ipv4L4ChecksumSpec, pseudoHeaderWords,
    words16, List.getD_cons_zero, List.getD_cons_succ, List.sum_append, List.sum_cons,
    List.sum_nil]
  rw [tcpipSum32_eq data _ (Nat.mod_lt _ (by omega))]
  apply hxor
  omega

/-! Two-byte write specializations and the canonical form of
recalculateChecksumIPv4. -/

theorem writeAt_two_collapse {i a b x y : Nat} {l : List Nat} (h : i + 2 ≤ l.length) :
    writeAt i [a, b] (writeAt i [x, y] l) = writeAt i [a, b] l :=
  writeAt_writeAt_same (by simp) (by simp; omega)

theorem writeAt_two_comm {i j a b x y : Nat} {l : List Nat} (hij : i + 2 ≤ j)
    (hj : j + 2 ≤ l.length) :
    writeAt i [a, b] (writeAt j [x, y] l) = writeAt j [x, y] (writeAt i [a, b] l) :=
  writeAt_comm (by simp; omega) (by simp; omega)

theorem getD_writeAt_two_out {i a b : Nat} {l : List Nat} (j : Nat)
    (h : i + 2 ≤ l.length) (hj : j < i ∨ i + 2 ≤ j) :
    (writeAt i [a, b] l).getD j 0 = l.getD j 0 := by
  rw [getD_writeAt (by simp; omega), if_neg (by simp; omega)]

theorem getD_writeAt_two_fst {i a b : Nat} {l : List Nat} (h : i + 2 ≤ l.length) :
    (writeAt i [a, b] l).getD i 0 = a := by
  rw [getD_writeAt (by simp; omega), if_pos (by simp; try omega), Nat.sub_self]
  rfl

theorem getD_writeAt_two_snd {i a b : Nat} {l : List Nat} (h : i + 2 ≤ l.length) :
    (writeAt i [a, b] l).getD (i + 1) 0 = b := by
  rw [getD_writeAt (by simp; omega), if_pos (by simp; try omega),
    Nat.add_sub_cancel_left]
  rfl

theorem take_writeAt_two {m i a b : Nat} {l : List Nat} (hm : m ≤ i)
    (h : i + 2 ≤ l.length) : (writeAt i [a, b] l).take m = l.take m :=
  take_writeAt_of_le hm (by simp; omega)

theorem recalc_canonical {p : List Nat} (h : RecalcWF p) :
    recalculateChecksumIPv4 p = canonRecalc p := by
  obtain ⟨h5, hihl, htcp, hudp⟩ := h
  unfold ihlOf at hihl
  unfold protoOf ihlOf at htcp hudp
  simp only [recalculateChecksumIPv4, canonRecalc, l4Ck, l4Off, withIpCk, ipCk, protoOf,
    ihlOf]
  generalize checksumIPv4Header
    (List.take (p.getD 0 0 % 16 * 4) (writeAt ipv4offsetChecksum [0, 0] p)) = ic
  rw [writeAt_two_collapse (by simp [ipv4offsetChecksum]; omega)]
  have hp9 : (writeAt ipv4offsetChecksum [ic / 256, ic % 256] p).getD 9 0 = p.getD 9 0 :=
    getD_writeAt_two_out 9 (by simp [ipv4offsetChecksum]; omega)
      (by simp [ipv4offsetChecksum])
  rw [hp9]
  by_cases h6 : p.getD 9 0 = 6
  · simp only [if_pos h6, if_pos (Or.inl h6)]
    have hb := htcp h6
    rw [writeAt_two_collapse (by rw [writeAt_length]; omega)]
  · by_cases h17 : p.getD 9 0 = 17
    · simp only [if_neg h6, if_pos h17, if_pos (Or.inr h17)]
      have hb := hudp h17
      rw [writeAt_two_collapse (by rw [writeAt_length]; omega)]
    · simp only [if_neg h6, if_neg h17,
        if_neg (by tauto : ¬(p.getD 9 0 = 6 ∨ p.getD 9 0 = 17))]

/-! Properties of the canonical form. -/

theorem length_withIpCk (p : List Nat) : (withIpCk p).length = p.length := by
  unfold withIpCk
  exact writeAt_length _ _ _

theorem canonRecalc_eq_of {p : List Nat} (hor : protoOf p = 6 ∨ protoOf p = 17) :
    canonRecalc p = writeAt (l4Off p) [l4Ck p / 256, l4Ck p % 256] (withIpCk p) := by
  unfold canonRecalc
  rw [if_pos hor]

theorem canonRecalc_eq_of_not {p : List Nat} (hor : ¬(protoOf p = 6 ∨ protoOf p = 17)) :
    canonRecalc p = withIpCk p := by
  unfold canonRecalc
  rw [if_neg hor]

theorem ihlOf_ge {p : List Nat} (h : RecalcWF p) : 20 ≤ ihlOf p := by
  obtain ⟨h5, _, _, _⟩ := h
  unfold ihlOf
  omega

theorem l4Off_ge {p : List Nat} (h : RecalcWF p) : ihlOf p + 6 ≤ l4Off p := by
  unfold l4Off
  split <;> omega

theorem l4Off_add_two_le {p : List Nat} (h : RecalcWF p)
    (hor : protoOf p = 6 ∨ protoOf p = 17) : l4Off p + 2 ≤ p.length := by
  obtain ⟨h5, hihl, htcp, hudp⟩ := h
  unfold l4Off
  split
  · have := htcp ‹_›
    omega
  · rcases hor with h6 | h17
    · exact absurd h6 ‹_›
    · have := hudp h17
      omega

theorem length_canonRecalc (p : List Nat) : (canonRecalc p).length = p.length := by
  unfold canonRecalc
  split
  · rw [writeAt_length, length_withIpCk]
  · exact length_withIpCk p

theorem getD_canonRecalc_lt10 {p : List Nat} (h : RecalcWF p) {j : Nat} (hj : j < 10) :
    (canonRecalc p).getD j 0 = p.getD j 0 := by
  have h20 := ihlOf_ge h
  have h12 : ipv4offsetChecksum + 2 ≤ p.length := by
    have := h.2.1
    simp only [ipv4offsetChecksum]
    omega
  have hip : (withIpCk p).getD j 0 = p.getD j 0 := by
    unfold withIpCk
    exact getD_writeAt_two_out j h12 (by simp [ipv4offsetChecksum]; omega)
  unfold canonRecalc
  split
  · next hor =>
    have hoff := l4Off_ge h
    have hlen : l4Off p + 2 ≤ (withIpCk p).length := by
      rw [length_withIpCk]
      exact l4Off_add_two_le h hor
    rw [getD_writeAt_two_out j hlen (by omega)]
    exact hip
  · exact hip

theorem ihlOf_canonRecalc {p : List Nat} (h : RecalcWF p) :
    ihlOf (canonRecalc p) = ihlOf p := by
  unfold ihlOf
  rw [getD_canonRecalc_lt10 h (by omega)]

theorem protoOf_canonRecalc {p : List Nat} (h : RecalcWF p) :
    protoOf (canonRecalc p) = protoOf p := by
  unfold protoOf
  rw [getD_canonRecalc_lt10 h (by omega)]

theorem recalcWF_canonRecalc {p : List Nat} (h : RecalcWF p) :
    RecalcWF (canonRecalc p) := by
  obtain ⟨h5, hihl, htcp, hudp⟩ := h
  refine ⟨?_, ?_, ?_, ?_⟩
  · rw [show (canonRecalc p).getD 0 0 = p.getD 0 0 from
      getD_canonRecalc_lt10 ⟨h5, hihl, htcp, hudp⟩ (by omega)]
    exact h5
  · rw [ihlOf_canonRecalc ⟨h5, hihl, htcp, hudp⟩, length_canonRecalc]
    exact hihl
  · rw [protoOf_canonRecalc ⟨h5, hihl, htcp, hudp⟩,
      ihlOf_canonRecalc ⟨h5, hihl, htcp, hudp⟩, length_canonRecalc]
    exact htcp
  · rw [protoOf_canonRecalc ⟨h5, hihl, htcp, hudp⟩,
      ihlOf_canonRecalc ⟨h5, hihl, htcp, hudp⟩, length_canonRecalc]
    exact hudp

theorem ipCk_canonRecalc {p : List Nat} (h : RecalcWF p) : ipCk (canonRecalc p) = ipCk p := by
  have h20 := ihlOf_ge h
  have h12 : ipv4offsetChecksum + 2 ≤ p.length := by
    have := h.2.1
    simp only [ipv4offsetChecksum]
    omega
  unfold ipCk
  rw [ihlOf_canonRecalc h]
  congr 1
  by_cases hor : protoOf p = 6 ∨ protoOf p = 17
  · have hoff := l4Off_ge h
    have hb : l4Off p + 2 ≤ (withIpCk p).length := by
      rw [length_withIpCk]
      exact l4Off_add_two_le h hor
    rw [canonRecalc_eq_of hor,
      writeAt_two_comm (by simp only [ipv4offsetChecksum]; omega) hb,
      take_writeAt_two (by omega)
        (by rw [writeAt_length, length_withIpCk]; exact l4Off_add_two_le h hor)]
    unfold withIpCk
    rw [writeAt_two_collapse h12]
  · rw [canonRecalc_eq_of_not hor]
    unfold withIpCk
    rw [writeAt_two_collapse h12]

theorem withIpCk_canonRecalc {p : List Nat} (h : RecalcWF p) :
    withIpCk (canonRecalc p) = canonRecalc p := by
  have h20 := ihlOf_ge h
  have h12 : ipv4offsetChecksum + 2 ≤ p.length := by
    have := h.2.1
    simp only [ipv4offsetChecksum]
    omega
  have hself : writeAt ipv4offsetChecksum [ipCk p / 256, ipCk p % 256] (withIpCk p) =
      withIpCk p := by
    unfold withIpCk
    exact writeAt_two_collapse h12
  unfold withIpCk
  rw [ipCk_canonRecalc h]
  by_cases hor : protoOf p = 6 ∨ protoOf p = 17
  · have hoff := l4Off_ge h
    have hb : l4Off p + 2 ≤ (withIpCk p).length := by
      rw [length_withIpCk]
      exact l4Off_add_two_le h hor
    rw [canonRecalc_eq_of hor,
      writeAt_two_comm (by simp only [ipv4offsetChecksum]; omega) hb, hself]
  · rw [canonRecalc_eq_of_not hor, hself]

theorem l4Off_canonRecalc {p : List Nat} (h : RecalcWF p) :
    l4Off (canonRecalc p) = l4Off p := by
  unfold l4Off
  rw [protoOf_canonRecalc h, ihlOf_canonRecalc h]

theorem l4Ck_canonRecalc {p : List Nat} (h : RecalcWF p) : l4Ck (canonRecalc p) = l4Ck p := by
  unfold l4Ck
  rw [l4Off_canonRecalc h, withIpCk_canonRecalc h, ihlOf_canonRecalc h,
    protoOf_canonRecalc h]
  by_cases hor : protoOf p = 6 ∨ protoOf p = 17
  · rw [canonRecalc_eq_of hor,
      writeAt_two_collapse (by rw [length_withIpCk]; exact l4Off_add_two_le h hor)]
  · rw [canonRecalc_eq_of_not hor]

theorem canonRecalc_idem {p : List Nat} (h : RecalcWF p) :
    canonRecalc (canonRecalc p) = canonRecalc p := by
  by_cases hor : protoOf p = 6 ∨ protoOf p = 17
  · have hor2 : protoOf (canonRecalc p) = 6 ∨ protoOf (canonRecalc p) = 17 := by
      rw [protoOf_canonRecalc h]
      exact hor
    rw [canonRecalc_eq_of hor2, l4Off_canonRecalc h, l4Ck_canonRecalc h,
      withIpCk_canonRecalc h, canonRecalc_eq_of hor,
      writeAt_two_collapse (by rw [length_withIpCk]; exact l4Off_add_two_le h hor)]
  · have hor2 : ¬(protoOf (canonRecalc p) = 6 ∨ protoOf (canonRecalc p) = 17) := by
      rw [protoOf_canonRecalc h]
      exact hor
    rw [canonRecalc_eq_of_not hor2, withIpCk_canonRecalc h]

theorem drop_take_writeAt_two_disjoint {i a b off n : Nat} {l : List Nat}
    (h : i + 2 ≤ l.length) (hdisj : off + n ≤ i ∨ i + 2 ≤ off) :
    ((writeAt i [a, b] l).drop off).take n = (l.drop off).take n :=
  drop_take_writeAt_disjoint (by simp; omega) (by simp; omega)

theorem ck_bound {p : List Nat} (h : RecalcWF p) : ipv4offsetChecksum + 2 ≤ p.length := by
  have h20 := ihlOf_ge h
  have := h.2.1
  simp only [ipv4offsetChecksum]
  omega

theorem getD_canonRecalc_ck_fst {p : List Nat} (h : RecalcWF p) :
    (canonRecalc p).getD ipv4offsetChecksum 0 = ipCk p / 256 := by
  have h12 := ck_bound h
  have h20 := ihlOf_ge h
  by_cases hor : protoOf p = 6 ∨ protoOf p = 17
  · have hoff := l4Off_ge h
    rw [canonRecalc_eq_of hor,
      getD_writeAt_two_out _ (by rw [length_withIpCk]; exact l4Off_add_two_le h hor)
        (by simp only [ipv4offsetChecksum] at *; omega)]
    unfold withIpCk
    exact getD_writeAt_two_fst h12
  · rw [canonRecalc_eq_of_not hor]
    unfold withIpCk
    exact getD_writeAt_two_fst h12

theorem getD_canonRecalc_ck_snd {p : List Nat} (h : RecalcWF p) :
    (canonRecalc p).getD (ipv4offsetChecksum + 1) 0 = ipCk p % 256 := by
  have h12 := ck_bound h
  have h20 := ihlOf_ge h
  by_cases hor : protoOf p = 6 ∨ protoOf p = 17
  · have hoff := l4Off_ge h
    rw [canonRecalc_eq_of hor,
      getD_writeAt_two_out _ (by rw [length_withIpCk]; exact l4Off_add_two_le h hor)
        (by simp only [ipv4offsetChecksum] at *; omega)]
    unfold withIpCk
    exact getD_writeAt_two_snd h12
  · rw [canonRecalc_eq_of_not hor]
    unfold withIpCk
    exact getD_writeAt_two_snd h12

theorem getD_canonRecalc_l4_fst {p : List Nat} (h : RecalcWF p)
    (hor : protoOf p = 6 ∨ protoOf p = 17) :
    (canonRecalc p).getD (l4Off p) 0 = l4Ck p / 256 := by
  rw [canonRecalc_eq_of hor]
  exact getD_writeAt_two_fst (by rw [length_withIpCk]; exact l4Off_add_two_le h hor)

theorem getD_canonRecalc_l4_snd {p : List Nat} (h : RecalcWF p)
    (hor : protoOf p = 6 ∨ protoOf p = 17) :
    (canonRecalc p).getD (l4Off p + 1) 0 = l4Ck p % 256 := by
  rw [canonRecalc_eq_of hor]
  exact getD_writeAt_two_snd (by rw [length_withIpCk]; exact l4Off_add_two_le h hor)

theorem srcSlice_canonRecalc {p : List Nat} (h : RecalcWF p) :
    ((canonRecalc p).drop IPv4offsetSrc).take IPv4len =
      (p.drop IPv4offsetSrc).take IPv4len := by
  have h12 := ck_bound h
  have h20 := ihlOf_ge h
  have hin : ((withIpCk p).drop IPv4offsetSrc).take IPv4len =
      (p.drop IPv4offsetSrc).take IPv4len := by
    unfold withIpCk
    exact drop_take_writeAt_two_disjoint h12
      (by simp only [ipv4offsetChecksum, IPv4offsetSrc, IPv4len]; omega)
  by_cases hor : protoOf p = 6 ∨ protoOf p = 17
  · have hoff := l4Off_ge h
    rw [canonRecalc_eq_of hor,
      drop_take_writeAt_two_disjoint
        (by rw [length_withIpCk]; exact l4Off_add_two_le h hor)
        (by simp only [IPv4offsetSrc, IPv4len]; omega)]
    exact hin
  · rw [canonRecalc_eq_of_not hor]
    exact hin

theorem dstSlice_canonRecalc {p : List Nat} (h : RecalcWF p) :
    ((canonRecalc p).drop IPv4offsetDst).take IPv4len =
      (p.drop IPv4offsetDst).take IPv4len := by
  have h12 := ck_bound h
  have h20 := ihlOf_ge h
  have hin : ((withIpCk p).drop IPv4offsetDst).take IPv4len =
      (p.drop IPv4offsetDst).take IPv4len := by
    unfold withIpCk
    exact drop_take_writeAt_two_disjoint h12
      (by simp only [ipv4offsetChecksum, IPv4offsetDst, IPv4len]; omega)
  by_cases hor : protoOf p = 6 ∨ protoOf p = 17
  · have hoff := l4Off_ge h
    rw [canonRecalc_eq_of hor,
      drop_take_writeAt_two_disjoint
        (by rw [length_withIpCk]; exact l4Off_add_two_le h hor)
        (by simp only [IPv4offsetDst, IPv4len]; omega)]
    exact hin
  · rw [canonRecalc_eq_of_not hor]
    exact hin

/-! Claim theorems. -/

/-- C2: checksumIPv4TCPUDP equals the one's complement of the RFC-1071 sum of
the IPv4 pseudo-header (src, dst, 0x00 and the protocol, the L4 length) and
the L4 bytes, with 16-bit big-endian word accumulation, an odd trailing byte
shifted left by 8, carries folded by repeatedly adding the 16-bit halves, and
the pseudo-header pre-folded into the initial accumulator. -/
theorem checksumIPv4TCPUDP_matches_rfc1071 (data : List Nat) (protocol : Nat)
    (srcIP dstIP : List Nat) (hsrc : srcIP.length = 4) (hdst : dstIP.length = 4)
    (hsb : ∀ b ∈ srcIP, b ≤ 255) (hdb : ∀ b ∈ dstIP, b ≤ 255)
    (hdata : ∀ b ∈ data, b ≤ 255) (hproto : protocol ≤ 255)
    (hlen : data.length ≤ 65535) :
    checksumIPv4TCPUDP data protocol srcIP dstIP =
      ipv4L4ChecksumSpec data protocol srcIP dstIP :=
  checksumIPv4TCPUDP_spec data protocol srcIP dstIP hsrc hdst hsb hdb hdata hproto hlen

/-- Witness for C2 at the UDP test packet's L4 bytes. -/
theorem checksumIPv4TCPUDP_matches_rfc1071_witness :
    checksumIPv4TCPUDP (udpPacket.drop 20) 17 [10, 0, 0, 1] [10, 0, 0, 2] =
      ipv4L4ChecksumSpec (udpPacket.drop 20) 17 [10, 0, 0, 1] [10, 0, 0, 2] :=
  checksumIPv4TCPUDP_matches_rfc1071 (udpPacket.drop 20) 17 [10, 0, 0, 1] [10, 0, 0, 2]
    (by decide) (by decide) (by decide) (by decide) (by decide) (by decide) (by decide)

/-- C3: checksumIPv4Header computes the RFC-1071 ones-complement checksum,
and after recalculate_checksum completes on an IPv4 packet the two bytes at
IPV4_CHECKSUM_OFFSET hold, in big-endian order, that checksum over the first
ihl bytes of the resulting packet with those two bytes zeroed, where
ihl = (packet[0] & 0x0f) << 2. -/
theorem checksumIPv4Header_rfc1071_and_stored :
    (∀ buf : List Nat, (∀ b ∈ buf, b ≤ 255) → buf.length ≤ 65535 →
      checksumIPv4Header buf = ipv4HeaderChecksumSpec buf) ∧
    (∀ p : List Nat, RecalcWF p →
      (recalculateChecksumIPv4 p).getD ipv4offsetChecksum 0 * 256 +
          (recalculateChecksumIPv4 p).getD (ipv4offsetChecksum + 1) 0 =
        checksumIPv4Header
          ((writeAt ipv4offsetChecksum [0, 0] (recalculateChecksumIPv4 p)).take
            (ihlOf (recalculateChecksumIPv4 p)))) := by
  constructor
  · exact checksumIPv4Header_spec
  · intro p hwf
    rw [recalc_canonical hwf]
    have hrhs : checksumIPv4Header
        ((writeAt ipv4offsetChecksum [0, 0] (canonRecalc p)).take
          (ihlOf (canonRecalc p))) = ipCk p := ipCk_canonRecalc hwf
    rw [hrhs, getD_canonRecalc_ck_fst hwf, getD_canonRecalc_ck_snd hwf]
    omega

/-- Witness for C3 at the UDP test packet and its header. -/
theorem checksumIPv4Header_rfc1071_and_stored_witness :
    checksumIPv4Header (udpPacket.take 20) = ipv4HeaderChecksumSpec (udpPacket.take 20) ∧
    (recalculateChecksumIPv4 udpPacket).getD ipv4offsetChecksum 0 * 256 +
        (recalculateChecksumIPv4 udpPacket).getD (ipv4offsetChecksum + 1) 0 =
      checksumIPv4Header
        ((writeAt ipv4offsetChecksum [0, 0] (recalculateChecksumIPv4 udpPacket)).take
          (ihlOf (recalculateChecksumIPv4 udpPacket))) :=
  ⟨checksumIPv4Header_rfc1071_and_stored.1 (udpPacket.take 20) (by decide) (by decide),
    checksumIPv4Header_rfc1071_and_stored.2 udpPacket (by decide)⟩

/-- C6: for a valid IPv4 packet on which Parse has succeeded, running
RecalculateChecksum twice in a row yields exactly the same packet bytes as
running it once. -/
theorem recalculateChecksum_idempotent (p s d : List Nat)
    (hparse : Parse p = ParseOutcome.ok s d false) (hwf : RecalcWF p) :
    RecalculateChecksum false (RecalculateChecksum false p) =
      RecalculateChecksum false p := by
  simp only [RecalculateChecksum, Bool.false_eq_true, if_false]
  rw [recalc_canonical hwf, recalc_canonical (recalcWF_canonRecalc hwf),
    canonRecalc_idem hwf]

/-- Witness for C6 at the UDP test packet. -/
theorem recalculateChecksum_idempotent_witness :
    RecalculateChecksum false (RecalculateChecksum false udpPacket) =
      RecalculateChecksum false udpPacket :=
  recalculateChecksum_idempotent udpPacket [10, 0, 0, 1] [10, 0, 0, 2]
    (by decide) (by decide)

theorem parse_ok_ipv4_inv {q s d : List Nat} (h : Parse q = ParseOutcome.ok s d false) :
    s = (q.drop IPv4offsetSrc).take IPv4len ∧ d = (q.drop IPv4offsetDst).take IPv4len ∧
      ipv4HeaderLen ≤ q.length := by
  cases q with
  | nil => simp [Parse] at h
  | cons b rest =>
    simp only [Parse, List.head?_cons] at h
    by_cases h4 : b / 16 = 4
    · rw [if_pos h4] at h
      by_cases hlt : (b :: rest).length < ipv4HeaderLen
      · rw [if_pos hlt] at h
        simp at h
      · rw [if_neg hlt] at h
        injection h with h1 h2 h3
        exact ⟨h1.symm, h2.symm, by omega⟩
    · rw [if_neg h4] at h
      by_cases h6 : b / 16 = 6
      · rw [if_pos h6] at h
        by_cases hlt : (b :: rest).length < ipv6HeaderLen
        · rw [if_pos hlt] at h
          simp at h
        · rw [if_neg hlt] at h
          injection h with h1 h2 h3
          exact absurd h3 (by simp)
      · rw [if_neg h6] at h
        simp at h

/-- C4: Parse reads the top nibble of byte 0 as the version; version 4 needs
20 bytes and sets the IPv4 views, version 6 needs 40 bytes and sets the IPv6
views, anything else fails; a 1-byte packet always fails. -/
theorem parse_version_dispatch :
    (∀ (packet : List Nat) (b0 : Nat), packet.head? = some b0 → b0 / 16 = 4 →
      (packet.length < 20 → Parse packet = ParseOutcome.fail) ∧
      (20 ≤ packet.length → Parse packet =
        ParseOutcome.ok ((packet.drop 12).take 4) ((packet.drop 16).take 4) false)) ∧
    (∀ (packet : List Nat) (b0 : Nat), packet.head? = some b0 → b0 / 16 = 6 →
      (packet.length < 40 → Parse packet = ParseOutcome.fail) ∧
      (40 ≤ packet.length → Parse packet =
        ParseOutcome.ok ((packet.drop 8).take 16) ((packet.drop 24).take 16) true)) ∧
    (∀ (packet : List Nat) (b0 : Nat), packet.head? = some b0 → b0 / 16 ≠ 4 →
      b0 / 16 ≠ 6 → Parse packet = ParseOutcome.fail) ∧
    (∀ b : Nat, Parse [b] = ParseOutcome.fail) := by
  refine ⟨?_, ?_, ?_, ?_⟩
  · intro packet b0 hh hv
    simp only [Parse, hh, ipv4HeaderLen, IPv4offsetSrc, IPv4offsetDst, IPv4len,
      if_pos hv]
    constructor
    · intro hlt
      rw [if_pos hlt]
    · intro hge
      rw [if_neg (by omega)]
  · intro packet b0 hh hv
    simp only [Parse, hh, ipv6HeaderLen, IPv6offsetSrc, IPv6offsetDst, IPv6len,
      if_neg (by omega : ¬b0 / 16 = 4), if_pos hv]
    constructor
    · intro hlt
      rw [if_pos hlt]
    · intro hge
      rw [if_neg (by omega)]
  · intro packet b0 hh hv4 hv6
    simp only [Parse, hh, if_neg hv4, if_neg hv6]
  · intro b
    simp only [Parse, List.head?_cons, ipv4HeaderLen, ipv6HeaderLen]
    by_cases h4 : b / 16 = 4
    · rw [if_pos h4, if_pos (by simp)]
    · rw [if_neg h4]
      by_cases h6 : b / 16 = 6
      · rw [if_pos h6, if_pos (by simp)]
      · rw [if_neg h6]

/-- Witness for C4 at concrete packets of each shape. -/
theorem parse_version_dispatch_witness :
    Parse synPacket =
      ParseOutcome.ok ((synPacket.drop 12).take 4) ((synPacket.drop 16).take 4) false ∧
    Parse [0x45, 0, 0] = ParseOutcome.fail ∧
    Parse [0x60] = ParseOutcome.fail ∧
    Parse [0x25, 0, 0] = ParseOutcome.fail ∧
    Parse [0x45] = ParseOutcome.fail :=
  ⟨(parse_version_dispatch.1 synPacket 0x45 (by decide) (by decide)).2 (by decide),
    (parse_version_dispatch.1 [0x45, 0, 0] 0x45 (by decide) (by decide)).1 (by decide),
    (parse_version_dispatch.2.1 [0x60] 0x60 (by decide) (by decide)).1 (by decide),
    parse_version_dispatch.2.2.1 [0x25, 0, 0] 0x25 (by decide) (by decide) (by decide),
    parse_version_dispatch.2.2.2 0x45⟩

/-- C10: Parse reads byte 0 before any length check, so the empty packet view
that read_from produces on an immediately-closed stream makes the index-0
access out of bounds; any nonempty packet never reaches that out-of-bounds
access. -/
theorem parse_empty_packet_out_of_bounds :
    Parse (readFromPacket []) = ParseOutcome.panic ∧
    Parse [] = ParseOutcome.panic ∧
    (∀ packet : List Nat, packet ≠ [] → Parse packet ≠ ParseOutcome.panic) := by
  refine ⟨rfl, rfl, ?_⟩
  intro packet hne
  cases packet with
  | nil => exact absurd rfl hne
  | cons b rest =>
    simp only [Parse, List.head?_cons]
    by_cases h4 : b / 16 = 4
    · rw [if_pos h4]
      split <;> simp
    · rw [if_neg h4]
      by_cases h6 : b / 16 = 6
      · rw [if_pos h6]
        split <;> simp
      · rw [if_neg h6]
        simp

/-- Witness for C10's nonempty conjunct at a 1-byte packet. -/
theorem parse_empty_packet_out_of_bounds_witness :
    Parse [0x45] ≠ ParseOutcome.panic :=
  parse_empty_packet_out_of_bounds.2.2 [0x45] (by decide)

/-- C5: the TUN packet reader emits only packets with 0 < size and size at
most maxContentSize, whose packet view is buffer bytes tunPacketOffset to
tunPacketOffset+size, on which Parse succeeded; for IPv4 packets the src and
dst views are exactly 4 bytes inside the packet. -/
theorem tunReader_emits_parsed_bounded_packets (buffer : List Nat) (size : Nat)
    (packet : List Nat) (h : tunReaderStep buffer size = some packet) :
    0 < size ∧ size ≤ maxContentSize ∧
    packet = (buffer.drop tunPacketOffset).take size ∧
    (∃ s d v6, Parse packet = ParseOutcome.ok s d v6) ∧
    (∀ s d, Parse packet = ParseOutcome.ok s d false →
      s = (packet.drop IPv4offsetSrc).take IPv4len ∧ s.length = 4 ∧
      d = (packet.drop IPv4offsetDst).take IPv4len ∧ d.length = 4 ∧
      20 ≤ packet.length) := by
  unfold tunReaderStep at h
  simp only [] at h
  by_cases h0 : size = 0
  · rw [if_pos h0] at h
    exact absurd h (by simp)
  rw [if_neg h0] at h
  by_cases hm : maxContentSize < size
  · rw [if_pos hm] at h
    exact absurd h (by simp)
  rw [if_neg hm] at h
  cases hp : Parse ((buffer.drop tunPacketOffset).take size) with
  | panic =>
    rw [hp] at h
    exact absurd h (by simp)
  | fail =>
    rw [hp] at h
    exact absurd h (by simp)
  | ok s d v6 =>
    rw [hp] at h
    have hpkt : packet = (buffer.drop tunPacketOffset).take size :=
      (Option.some.inj h).symm
    subst hpkt
    refine ⟨by omega, by omega, rfl, ⟨s, d, v6, hp⟩, ?_⟩
    intro s2 d2 hok
    obtain ⟨hs, hd, hlen⟩ := parse_ok_ipv4_inv hok
    simp only [ipv4HeaderLen] at hlen
    have hlen2 := hlen
    simp only [List.length_take, List.length_drop] at hlen2
    refine ⟨hs, ?_, hd, ?_, hlen⟩
    · rw [hs]
      simp only [List.length_take, List.length_drop, IPv4offsetSrc, IPv4len]
      omega
    · rw [hd]
      simp only [List.length_take, List.length_drop, IPv4offsetDst, IPv4len]
      omega

/-- Witness for C5 at a buffer holding the TCP SYN test packet. -/
theorem tunReader_emits_parsed_bounded_packets_witness :
    0 < 40 ∧ 40 ≤ maxContentSize ∧
    synPacket = (([0, 0, 0, 0] ++ synPacket).drop tunPacketOffset).take 40 ∧
    (∃ s d v6, Parse synPacket = ParseOutcome.ok s d v6) ∧
    (∀ s d, Parse synPacket = ParseOutcome.ok s d false →
      s = (synPacket.drop IPv4offsetSrc).take IPv4len ∧ s.length = 4 ∧
      d = (synPacket.drop IPv4offsetDst).take IPv4len ∧ d.length = 4 ∧
      20 ≤ synPacket.length) := by
  have h := tunReader_emits_parsed_bounded_packets ([0, 0, 0, 0] ++ synPacket) 40
    synPacket (by decide)
  obtain ⟨h1, h2, h3, h4, h5⟩ := h
  exact ⟨h1, h2, h3, h4, h5⟩

/-- C1: for an IPv4 packet whose views were populated by Parse, WritePacket
overwrites packet bytes 12..16 with senderIP and bytes 16..20 with the
device's localIP, regenerates the IP header checksum and the TCP/UDP
transport checksum, and writes buffer[0..tunPacketOffset+len(packet)] to the
TUN device. -/
theorem writePacket_rewrites_addresses_and_checksums
    (buffer : List Nat) (packetLen : Nat) (packet senderIP localIP : List Nat)
    (hpkt : packet = (buffer.drop tunPacketOffset).take packetLen)
    (hbuf : tunPacketOffset + packetLen ≤ buffer.length)
    (hs : senderIP.length = 4) (hl : localIP.length = 4)
    (hparse : ∃ s d, Parse packet = ParseOutcome.ok s d false)
    (hwf : RecalcWF (writeAt IPv4offsetDst localIP (writeAt IPv4offsetSrc senderIP packet))) :
    WritePacket buffer packetLen false senderIP localIP =
      some (buffer.take tunPacketOffset ++ writePacketIPv4 packet senderIP localIP) ∧
    (writePacketIPv4 packet senderIP localIP).length = packetLen ∧
    ((writePacketIPv4 packet senderIP localIP).drop IPv4offsetSrc).take IPv4len = senderIP ∧
    ((writePacketIPv4 packet senderIP localIP).drop IPv4offsetDst).take IPv4len = localIP ∧
    ((writePacketIPv4 packet senderIP localIP).getD ipv4offsetChecksum 0 * 256 +
        (writePacketIPv4 packet senderIP localIP).getD (ipv4offsetChecksum + 1) 0 =
      checksumIPv4Header
        ((writeAt ipv4offsetChecksum [0, 0] (writePacketIPv4 packet senderIP localIP)).take
          (ihlOf (writePacketIPv4 packet senderIP localIP)))) ∧
    (protoOf (writePacketIPv4 packet senderIP localIP) = 6 ∨
        protoOf (writePacketIPv4 packet senderIP localIP) = 17 →
      (writePacketIPv4 packet senderIP localIP).getD
            (l4Off (writePacketIPv4 packet senderIP localIP)) 0 * 256 +
          (writePacketIPv4 packet senderIP localIP).getD
            (l4Off (writePacketIPv4 packet senderIP localIP) + 1) 0 =
        checksumIPv4TCPUDP
          ((writeAt (l4Off (writePacketIPv4 packet senderIP localIP)) [0, 0]
              (writePacketIPv4 packet senderIP localIP)).drop
            (ihlOf (writePacketIPv4 packet senderIP localIP)))
          (protoOf (writePacketIPv4 packet senderIP localIP))
          (((writeAt (l4Off (writePacketIPv4 packet senderIP localIP)) [0, 0]
              (writePacketIPv4 packet senderIP localIP)).drop IPv4offsetSrc).take IPv4len)
          (((writeAt (l4Off (writePacketIPv4 packet senderIP localIP)) [0, 0]
              (writePacketIPv4 packet senderIP localIP)).drop IPv4offsetDst).take IPv4len)) := by
  have hst : senderIP.take IPv4len = senderIP := by
    rw [show IPv4len = senderIP.length by simp [IPv4len, hs]]
    exact List.take_length senderIP
  have hlt : localIP.take IPv4len = localIP := by
    rw [show IPv4len = localIP.length by simp [IPv4len, hl]]
    exact List.take_length localIP
  have hW : writePacketIPv4 packet senderIP localIP =
      canonRecalc (writeAt IPv4offsetDst localIP (writeAt IPv4offsetSrc senderIP packet)) := by
    unfold writePacketIPv4
    rw [hst, hlt, recalc_canonical hwf]
  have hp'len : (writeAt IPv4offsetDst localIP (writeAt IPv4offsetSrc senderIP packet)).length =
      packet.length := by rw [writeAt_length, writeAt_length]
  have h20len : 20 ≤ packet.length := by
    have a := ihlOf_ge hwf
    have b := hwf.2.1
    rw [hp'len] at b
    omega
  have hplen : packet.length = packetLen := by
    rw [hpkt]
    simp only [List.length_take, List.length_drop]
    simp only [tunPacketOffset] at hbuf ⊢
    omega
  refine ⟨?_, ?_, ?_, ?_, ?_, ?_⟩
  · simp only [WritePacket, Bool.false_eq_true, if_false, hpkt]
  · rw [hW, length_canonRecalc, hp'len, hplen]
  · rw [hW, srcSlice_canonRecalc hwf,
      drop_take_writeAt_disjoint (by rw [hl, writeAt_length]; simp only [IPv4offsetDst]; omega)
        (Or.inl (by simp only [IPv4offsetSrc, IPv4len, IPv4offsetDst]; omega)),
      show IPv4len = senderIP.length by simp [IPv4len, hs]]
    exact drop_take_writeAt_exact (by rw [hs]; simp only [IPv4offsetSrc]; omega)
  · rw [hW, dstSlice_canonRecalc hwf,
      show IPv4len = localIP.length by simp [IPv4len, hl]]
    exact drop_take_writeAt_exact
      (by rw [hl, writeAt_length]; simp only [IPv4offsetDst]; omega)
  · rw [hW, getD_canonRecalc_ck_fst hwf, getD_canonRecalc_ck_snd hwf]
    have hrhs : checksumIPv4Header
        ((writeAt ipv4offsetChecksum [0, 0]
          (canonRecalc (writeAt IPv4offsetDst localIP
            (writeAt IPv4offsetSrc senderIP packet)))).take
          (ihlOf (canonRecalc (writeAt IPv4offsetDst localIP
            (writeAt IPv4offsetSrc senderIP packet))))) =
        ipCk (writeAt IPv4offsetDst localIP (writeAt IPv4offsetSrc senderIP packet)) :=
      ipCk_canonRecalc hwf
    rw [hrhs]
    omega
  · rw [hW]
    intro hor'
    have hor : protoOf (writeAt IPv4offsetDst localIP (writeAt IPv4offsetSrc senderIP packet)) = 6 ∨
        protoOf (writeAt IPv4offsetDst localIP (writeAt IPv4offsetSrc senderIP packet)) = 17 := by
      rwa [protoOf_canonRecalc hwf] at hor'
    rw [l4Off_canonRecalc hwf, ihlOf_canonRecalc hwf, protoOf_canonRecalc hwf,
      getD_canonRecalc_l4_fst hwf hor, getD_canonRecalc_l4_snd hwf hor]
    have hz : writeAt (l4Off (writeAt IPv4offsetDst localIP (writeAt IPv4offsetSrc senderIP packet)))
        [0, 0] (canonRecalc (writeAt IPv4offsetDst localIP (writeAt IPv4offsetSrc senderIP packet))) =
        writeAt (l4Off (writeAt IPv4offsetDst localIP (writeAt IPv4offsetSrc senderIP packet)))
        [0, 0] (withIpCk (writeAt IPv4offsetDst localIP (writeAt IPv4offsetSrc senderIP packet))) := by
      rw [canonRecalc_eq_of hor,
        writeAt_two_collapse (by rw [length_withIpCk]; exact l4Off_add_two_le hwf hor)]
    rw [hz]
    show _ = l4Ck (writeAt IPv4offsetDst localIP (writeAt IPv4offsetSrc senderIP packet))
    omega

/-- Witness for C1 at the TCP SYN test packet with sender 192.168.1.5 and
local address 10.66.0.2. -/
theorem writePacket_rewrites_addresses_and_checksums_witness :
    ((writePacketIPv4 synPacket [192, 168, 1, 5] [10, 66, 0, 2]).drop
        IPv4offsetSrc).take IPv4len = [192, 168, 1, 5] ∧
    ((writePacketIPv4 synPacket [192, 168, 1, 5] [10, 66, 0, 2]).drop
        IPv4offsetDst).take IPv4len = [10, 66, 0, 2] ∧
    WritePacket ([0, 0, 0, 0] ++ synPacket) 40 false [192, 168, 1, 5] [10, 66, 0, 2] =
      some (([0, 0, 0, 0] ++ synPacket).take tunPacketOffset ++
        writePacketIPv4 synPacket [192, 168, 1, 5] [10, 66, 0, 2]) :=
  have h := writePacket_rewrites_addresses_and_checksums ([0, 0, 0, 0] ++ synPacket) 40
    synPacket [192, 168, 1, 5] [10, 66, 0, 2] (by decide) (by decide) (by decide)
    (by decide) ⟨[10, 0, 0, 1], [10, 0, 0, 2], by decide⟩ (by decide)
  ⟨h.2.2.1, h.2.2.2.1, h.1⟩

theorem foldl_notifyStep_opened (es : List StreamEvent) (s : StreamCounters) :
    (es.foldl notifyStep s).openedStreams =
      s.openedStreams + (countOpens es : Int) - (countCloses es : Int) := by
  induction es generalizing s with
  | nil => simp [countOpens, countCloses]
  | cons e rest ih =>
    cases e with
    | openedStream d =>
      cases d <;>
        simp only [List.foldl_cons, notifyStep, ih, countOpens, countCloses,
          List.countP_cons] <;> push_cast <;> ring
    | closedStream =>
      simp only [List.foldl_cons, notifyStep, ih, countOpens, countCloses,
        List.countP_cons]
      push_cast
      ring

theorem foldl_notifyStep_inbound (es : List StreamEvent) (s : StreamCounters) :
    (es.foldl notifyStep s).totalStreamsInbound =
      s.totalStreamsInbound + (countOpensIn es : Int) := by
  induction es generalizing s with
  | nil => simp [countOpensIn]
  | cons e rest ih =>
    cases e with
    | openedStream d =>
      cases d <;>
        simp only [List.foldl_cons, notifyStep, ih, countOpensIn, List.countP_cons] <;>
        push_cast <;> ring
    | closedStream =>
      simp only [List.foldl_cons, notifyStep, ih, countOpensIn, List.countP_cons]
      push_cast
      ring

theorem foldl_notifyStep_outbound (es : List StreamEvent) (s : StreamCounters) :
    (es.foldl notifyStep s).totalStreamsOutbound =
      s.totalStreamsOutbound + (countOpensOut es : Int) := by
  induction es generalizing s with
  | nil => simp [countOpensOut]
  | cons e rest ih =>
    cases e with
    | openedStream d =>
      cases d <;>
        simp only [List.foldl_cons, notifyStep, ih, countOpensOut, List.countP_cons] <;>
        push_cast <;> ring
    | closedStream =>
      simp only [List.foldl_cons, notifyStep, ih, countOpensOut, List.countP_cons]
      push_cast
      ring

theorem balancedFrom_closes_le : ∀ (k : Nat) (es : List StreamEvent),
    balancedFrom k es = true → countCloses es ≤ k + countOpens es
  | _, [], _ => by simp [countCloses, countOpens]
  | k, StreamEvent.openedStream d :: rest, h => by
    have ih := balancedFrom_closes_le (k + 1) rest (by simpa [balancedFrom] using h)
    simp [countCloses, countOpens, List.countP_cons] at ih ⊢
    omega
  | 0, StreamEvent.closedStream :: rest, h => by simp [balancedFrom] at h
  | k + 1, StreamEvent.closedStream :: rest, h => by
    have ih := balancedFrom_closes_le k rest (by simpa [balancedFrom] using h)
    simp [countCloses, countOpens, List.countP_cons] at ih ⊢
    omega

theorem balancedFrom_of_append : ∀ (k : Nat) (xs ys : List StreamEvent),
    balancedFrom k (xs ++ ys) = true → balancedFrom k xs = true
  | _, [], _, _ => by simp [balancedFrom]
  | k, StreamEvent.openedStream d :: xs, ys, h => by
    simpa [balancedFrom] using
      balancedFrom_of_append (k + 1) xs ys (by simpa [balancedFrom] using h)
  | 0, StreamEvent.closedStream :: xs, ys, h => by simp [balancedFrom] at h
  | k + 1, StreamEvent.closedStream :: xs, ys, h => by
    simpa [balancedFrom] using
      balancedFrom_of_append k xs ys (by simpa [balancedFrom] using h)

theorem counts_direction_split : ∀ (es : List StreamEvent),
    (∀ e ∈ es, e ≠ StreamEvent.openedStream StreamDirection.unknown) →
    countOpensIn es + countOpensOut es = countOpens es := by
  intro es hdir
  induction es with
  | nil => simp [countOpensIn, countOpensOut, countOpens]
  | cons e rest ih =>
    have h1 := hdir e (by simp)
    have ih2 := ih (fun x hx => hdir x (by simp [hx]))
    cases e with
    | openedStream d =>
      cases d with
      | inbound =>
        simp [countOpensIn, countOpensOut, countOpens, List.countP_cons] at ih2 ⊢
        omega
      | outbound =>
        simp [countOpensIn, countOpensOut, countOpens, List.countP_cons] at ih2 ⊢
        omega
      | unknown => exact absurd rfl h1
    | closedStream =>
      simp [countOpensIn, countOpensOut, countOpens, List.countP_cons] at ih2 ⊢
      omega

/-- C7 amended: under callback-generated traces (closes never outnumber
opens) in which every opened stream reports an inbound or outbound
direction, the open-streams counter is non-negative at all times, the two
totals are monotone non-decreasing, and their sum bounds the open count. -/
theorem streamCounters_invariants (pre post : List StreamEvent)
    (hbal : balancedFrom 0 (pre ++ post) = true)
    (hdir : ∀ e ∈ pre ++ post, e ≠ StreamEvent.openedStream StreamDirection.unknown) :
    0 ≤ (runNotify pre).openedStreams ∧
    (runNotify pre).openedStreams ≤
      (runNotify pre).totalStreamsInbound + (runNotify pre).totalStreamsOutbound ∧
    (runNotify pre).totalStreamsInbound ≤ (runNotify (pre ++ post)).totalStreamsInbound ∧
    (runNotify pre).totalStreamsOutbound ≤ (runNotify (pre ++ post)).totalStreamsOutbound := by
  have hbalpre := balancedFrom_of_append 0 pre post hbal
  have hle := balancedFrom_closes_le 0 pre hbalpre
  have hdirpre : ∀ e ∈ pre, e ≠ StreamEvent.openedStream StreamDirection.unknown :=
    fun e he => hdir e (by simp [he])
  have hsplit := counts_direction_split pre hdirpre
  have hinapp : countOpensIn (pre ++ post) = countOpensIn pre + countOpensIn post := by
    unfold countOpensIn
    rw [List.countP_append]
  have houtapp : countOpensOut (pre ++ post) = countOpensOut pre + countOpensOut post := by
    unfold countOpensOut
    rw [List.countP_append]
  unfold runNotify
  rw [foldl_notifyStep_opened, foldl_notifyStep_inbound, foldl_notifyStep_outbound,
    foldl_notifyStep_inbound, foldl_notifyStep_outbound]
  simp only [zeroCounters]
  omega

/-- C7 counterexample: a single OpenedStream with unknown direction is a
callback-generated trace after which totalStreamsInbound +
totalStreamsOutbound < openedStreams, refuting the claimed invariant as
stated. -/
theorem streamCounters_unknown_direction_counterexample :
    balancedFrom 0 [StreamEvent.openedStream StreamDirection.unknown] = true ∧
    (runNotify [StreamEvent.openedStream StreamDirection.unknown]).totalStreamsInbound +
        (runNotify [StreamEvent.openedStream StreamDirection.unknown]).totalStreamsOutbound <
      (runNotify [StreamEvent.openedStream StreamDirection.unknown]).openedStreams := by
  decide

/-- Witness for the amended C7 at the trace open-inbound then close. -/
theorem streamCounters_invariants_witness :
    0 ≤ (runNotify [StreamEvent.openedStream StreamDirection.inbound]).openedStreams ∧
    (runNotify [StreamEvent.openedStream StreamDirection.inbound]).openedStreams ≤
      (runNotify [StreamEvent.openedStream StreamDirection.inbound]).totalStreamsInbound +
        (runNotify [StreamEvent.openedStream StreamDirection.inbound]).totalStreamsOutbound ∧
    (runNotify [StreamEvent.openedStream StreamDirection.inbound]).totalStreamsInbound ≤
      (runNotify ([StreamEvent.openedStream StreamDirection.inbound] ++
        [StreamEvent.closedStream])).totalStreamsInbound ∧
    (runNotify [StreamEvent.openedStream StreamDirection.inbound]).totalStreamsOutbound ≤
      (runNotify ([StreamEvent.openedStream StreamDirection.inbound] ++
        [StreamEvent.closedStream])).totalStreamsOutbound :=
  streamCounters_invariants [StreamEvent.openedStream StreamDirection.inbound]
    [StreamEvent.closedStream] (by decide) (by decide)

/-- C8: Bootstrap returns an error exactly when the DHT self-bootstrap
fails, with that error wrapped as "bootstrap dht: ..."; peer parsing and
dial outcomes only produce logs and never affect the result, a canceled
dial is silently ignored, and the DHT bootstrap is the last event, after
every dial completes. -/
theorem bootstrap_error_iff_dht_error :
    (∀ (peers : List BootstrapPeer) (dhtErr : Option String) (e : String),
      (Bootstrap peers dhtErr).2 = some e ↔
        ∃ e0, dhtErr = some e0 ∧ e = "bootstrap dht: " ++ e0) ∧
    (∀ (peers : List BootstrapPeer) (dhtErr : Option String),
      (Bootstrap peers dhtErr).2 = none ↔ dhtErr = none) ∧
    (∀ (peers peers2 : List BootstrapPeer) (dhtErr : Option String),
      (Bootstrap peers dhtErr).2 = (Bootstrap peers2 dhtErr).2) ∧
    dialLogs (BootstrapPeer.valid DialResult.contextCanceled) = [] ∧
    dialLogs (BootstrapPeer.valid DialResult.failed) = [BootstrapLog.warnConnectFailed] ∧
    dialLogs BootstrapPeer.invalidAddr = [BootstrapLog.warnInvalidAddr] ∧
    (∀ (peers : List BootstrapPeer) (dhtErr : Option String),
      ((Bootstrap peers dhtErr).1).getLast? = some BootstrapLog.dhtBootstrapStarted) := by
  refine ⟨?_, ?_, ?_, rfl, rfl, rfl, ?_⟩
  · intro peers dhtErr e
    cases dhtErr with
    | none => simp [Bootstrap]
    | some e0 =>
      simp only [Bootstrap, Option.map_some]
      constructor
      · intro h
        exact ⟨e0, rfl, (Option.some.inj h).symm⟩
      · rintro ⟨e1, he1, rfl⟩
        simp [Option.some.inj he1]
  · intro peers dhtErr
    cases dhtErr <;> simp [Bootstrap]
  · intro peers peers2 dhtErr
    simp [Bootstrap]
  · intro peers dhtErr
    simp [Bootstrap, List.getLast?_concat]

theorem poolStep_inv (st : List PoolPacket × List PoolPacket) (op : PoolOp)
    (h1 : ∀ p ∈ st.1, cleanViews p) (h2 : ∀ p ∈ st.2, cleanViews p) :
    (∀ p ∈ (poolStep st op).1, cleanViews p) ∧ (∀ p ∈ (poolStep st op).2, cleanViews p) := by
  cases op with
  | checkIn q =>
    constructor
    · intro p hp
      simp only [poolStep, putTempPacket, List.mem_cons] at hp
      rcases hp with rfl | hp
      · simp [clearPacket, cleanViews]
      · exact h1 p hp
    · exact h2
  | checkOut c =>
    simp only [poolStep, getTempPacket]
    cases hc : st.1[c]? with
    | some q =>
      constructor
      · intro p hp
        exact h1 p (List.eraseIdx_subset _ _ hp)
      · intro p hp
        rcases List.mem_cons.mp hp with rfl | hp
        · exact h1 p (List.getElem?_mem hc)
        · exact h2 p hp
    | none =>
      constructor
      · exact h1
      · intro p hp
        rcases List.mem_cons.mp hp with rfl | hp
        · simp [zeroPacket, cleanViews]
        · exact h2 p hp

theorem foldl_poolStep_inv : ∀ (ops : List PoolOp) (st : List PoolPacket × List PoolPacket),
    (∀ p ∈ st.1, cleanViews p) → (∀ p ∈ st.2, cleanViews p) →
    (∀ p ∈ (List.foldl poolStep st ops).1, cleanViews p) ∧
      (∀ p ∈ (List.foldl poolStep st ops).2, cleanViews p)
  | [], _, h1, h2 => ⟨h1, h2⟩
  | op :: rest, st, h1, h2 => by
    simp only [List.foldl_cons]
    exact foldl_poolStep_inv rest (poolStep st op) (poolStep_inv st op h1 h2).1
      (poolStep_inv st op h1 h2).2

/-- C9 amended: under every interleaving of check-ins and check-outs, every
packet in the pool and every packet handed out by getTempPacket has clean
views (nil packet, src and dst views, IsIPv6 false); check-in clears the
views first.  The backing array of a reused buffer may retain old bytes. -/
theorem packetPool_clean_views_invariant (ops : List PoolOp) :
    (∀ p ∈ (runPool ops).1, cleanViews p) ∧ (∀ p ∈ (runPool ops).2, cleanViews p) :=
  foldl_poolStep_inv ops ([], []) (by simp) (by simp)

/-- C9 counterexample: a buffer whose backing array was written, checked in
and checked out again, is handed out with the leftover byte still present,
so the checked-out packet is not zero-initialized. -/
theorem packetPool_zero_initialized_counterexample :
    (runPool [PoolOp.checkIn dirtyPacket, PoolOp.checkOut 0]).2 =
      [clearPacket dirtyPacket] ∧
    ¬ zeroInitialized (clearPacket dirtyPacket) := by
  constructor
  · rfl
  · intro hz
    have h1 := hz.1 1 (by simp [clearPacket, dirtyPacket])
    exact absurd h1 (by decide)
